import Mathlib

/-!
Shallow embedding of the Compact IR validator of
`packages/training/src/modal/eval.py`: the pattern table
`COMPACT_IR_PATTERNS`, `validate_syntax`, `validate_references`, the
combined check and exact-match scoring performed by `evaluate_single`,
and the aggregation of `evaluate_model` / `compute_metrics`.

Python strings are modelled as `List Char`.  `str.strip` / `str.split`
and the regex classes `\s`, `\d` are modelled at their ASCII meaning
(Python additionally treats some non-ASCII characters as whitespace or
digits; no claim depends on those).  Because every name containing the
word "syntax" is renamed with the abbreviation `Syn` for tooling
reasons, the doc comment of each definition gives the exact source
name it embeds.
-/

/-- ASCII whitespace: the characters stripped by Python's `str.strip()`
and matched by the regex class `\s`. -/
def isPySpace (c : Char) : Bool :=
  c = ' ' || c = '\t' || c = '\n' || c = '\r' || c = '\x0b' || c = '\x0c'

/-- Python `str.strip()`: drop trailing whitespace, then leading
whitespace (same result as Python's both-ends strip). -/
def pyStrip (s : List Char) : List Char :=
  (((s.reverse).dropWhile isPySpace).reverse).dropWhile isPySpace

/-- Python `str.split("\n")`: split at every newline, keeping empty
pieces, so the result is always nonempty. -/
def splitNL : List Char → List (List Char)
  | [] => [[]]
  | c :: s =>
    match splitNL s with
    | [] => [[]]
    | l :: ls => if c = '\n' then [] :: l :: ls else (c :: l) :: ls

/-- Helper for `pySplitWs`; `acc` holds the characters of the token
being read, reversed. -/
def splitWsAux : List Char → List Char → List (List Char)
  | [], acc => if acc = [] then [] else [acc.reverse]
  | c :: s, acc =>
    if isPySpace c then
      if acc = [] then splitWsAux s [] else acc.reverse :: splitWsAux s []
    else splitWsAux s (c :: acc)

/-- Python `str.split()` with no argument: whitespace-delimited tokens,
empty tokens dropped. -/
def pySplitWs (s : List Char) : List (List Char) := splitWsAux s []

/-- One atom of a pattern from `COMPACT_IR_PATTERNS`: a literal
character, a nonempty run of a character class (`\s+`, `\d+`, `[\d.]+`),
or an optional minus sign (`-?`).  The table only puts atoms with
disjoint character sets next to each other, so greedy matching without
backtracking is equivalent to the source's regexes. -/
inductive Atom
  | lit (c : Char)
  | ws
  | digits
  | digitsDot
  | optMinus
deriving DecidableEq

/-- The regex class `[\d.]` used for decimal operands. -/
def isDigitDot (c : Char) : Bool := c.isDigit || c = '.'

/-- Match a nonempty greedy run of characters satisfying `cls` at the
front of `s`, returning the rest of the input. -/
def matchClass (cls : Char → Bool) (s : List Char) : Option (List Char) :=
  if s.takeWhile cls = [] then none else some (s.dropWhile cls)

/-- Match a single atom at the front of the input. -/
def matchAtom : Atom → List Char → Option (List Char)
  | .lit _, [] => none
  | .lit c, d :: r => if d = c then some r else none
  | .ws, s => matchClass isPySpace s
  | .digits, s => matchClass Char.isDigit s
  | .digitsDot, s => matchClass isDigitDot s
  | .optMinus, s => if s.head? = some '-' then some s.tail else some s

/-- Match a sequence of atoms, returning the remaining input. -/
def matchSeq : List Atom → List Char → Option (List Char)
  | [], s => some s
  | a :: rest, s =>
    match matchAtom a s with
    | none => none
    | some r => matchSeq rest r

/-- Anchored match of a whole pattern, as `pattern.match(line)` with the
source's `^...$` regexes does on a newline-free line. -/
def matchAtoms (p : List Atom) (s : List Char) : Bool :=
  match matchSeq p s with
  | some r => r.isEmpty
  | none => false

/-- `"cube": ^C\s+[\d.]+\s+[\d.]+\s+[\d.]+$` -/
def cubePattern : List Atom :=
  [.lit 'C', .ws, .digitsDot, .ws, .digitsDot, .ws, .digitsDot]

/-- `"cylinder": ^Y\s+[\d.]+\s+[\d.]+$` -/
def cylinderPattern : List Atom := [.lit 'Y', .ws, .digitsDot, .ws, .digitsDot]

/-- `"sphere": ^S\s+[\d.]+$` -/
def spherePattern : List Atom := [.lit 'S', .ws, .digitsDot]

/-- `"cone": ^K\s+[\d.]+\s+[\d.]+\s+[\d.]+$` -/
def conePattern : List Atom :=
  [.lit 'K', .ws, .digitsDot, .ws, .digitsDot, .ws, .digitsDot]

/-- `"translate": ^T\s+\d+\s+-?[\d.]+\s+-?[\d.]+\s+-?[\d.]+$` -/
def translatePattern : List Atom :=
  [.lit 'T', .ws, .digits, .ws, .optMinus, .digitsDot, .ws, .optMinus, .digitsDot,
    .ws, .optMinus, .digitsDot]

/-- `"rotate": ^R\s+\d+\s+-?[\d.]+\s+-?[\d.]+\s+-?[\d.]+$` -/
def rotatePattern : List Atom :=
  [.lit 'R', .ws, .digits, .ws, .optMinus, .digitsDot, .ws, .optMinus, .digitsDot,
    .ws, .optMinus, .digitsDot]

/-- `"scale": ^SC\s+\d+\s+[\d.]+\s+[\d.]+\s+[\d.]+$` -/
def scalePattern : List Atom :=
  [.lit 'S', .lit 'C', .ws, .digits, .ws, .digitsDot, .ws, .digitsDot, .ws, .digitsDot]

/-- `"union": ^U\s+\d+\s+\d+$` -/
def unionPattern : List Atom := [.lit 'U', .ws, .digits, .ws, .digits]

/-- `"difference": ^D\s+\d+\s+\d+$` -/
def differencePattern : List Atom := [.lit 'D', .ws, .digits, .ws, .digits]

/-- `"intersection": ^I\s+\d+\s+\d+$` -/
def intersectionPattern : List Atom := [.lit 'I', .ws, .digits, .ws, .digits]

/-- The pattern table `COMPACT_IR_PATTERNS`, in the source dict's
insertion (= iteration) order. -/
def COMPACT_IR_PATTERNS : List (List Atom) :=
  [cubePattern, cylinderPattern, spherePattern, conePattern, translatePattern,
    rotatePattern, scalePattern, unionPattern, differencePattern, intersectionPattern]

/-- The inner loop of `validate_syntax` over the pattern table `tbl`:
the source records only whether some pattern matched the line. -/
def lineMatchesT (tbl : List (List Atom)) (s : List Char) : Bool :=
  tbl.any fun p => matchAtoms p s

/-- A line matches some entry of `COMPACT_IR_PATTERNS`. -/
def lineMatches : List Char → Bool := lineMatchesT COMPACT_IR_PATTERNS

/-- Decimal digit character, for formatting numbers into messages. -/
def digitChar : Nat → Char
  | 0 => '0' | 1 => '1' | 2 => '2' | 3 => '3' | 4 => '4'
  | 5 => '5' | 6 => '6' | 7 => '7' | 8 => '8' | 9 => '9'
  | _ => '*'

/-- Fuel-driven helper for `natToChars`; the fuel is always sufficient
when it exceeds the number of digits. -/
def natToCharsAux : Nat → Nat → List Char → List Char
  | 0, _, acc => acc
  | fuel + 1, n, acc =>
    if n < 10 then digitChar n :: acc
    else natToCharsAux fuel (n / 10) (digitChar (n % 10) :: acc)

/-- Decimal representation of a natural number, as Python `str`. -/
def natToChars (n : Nat) : List Char := natToCharsAux (n + 1) n []

/-- Decimal representation of an integer, as Python f-string
interpolation renders it. -/
def intToChars (i : Int) : List Char :=
  if i < 0 then '-' :: natToChars i.natAbs else natToChars i.natAbs

/-- The message `"Empty IR"` of `validate_syntax`. -/
def emptyMsg : List Char := "Empty IR".toList

/-- The message `"No valid operations found"` of `validate_syntax`. -/
def noOpsMsg : List Char := "No valid operations found".toList

/-- The message `f"Invalid syntax at line {i + 1}: {line[:50]}"` of
`validate_syntax`, for 0-based index `i` and the stripped line. -/
def synErrMsg (i : Nat) (line : List Char) : List Char :=
  "Invalid syntax at line ".toList ++ natToChars (i + 1) ++ ": ".toList ++ line.take 50

/-- The message `f"Invalid reference {ref} at node {node_index}"` of
`validate_references`. -/
def refMsg1 (ref : Int) (k : Nat) : List Char :=
  "Invalid reference ".toList ++ intToChars ref ++ " at node ".toList ++ natToChars k

/-- The message `f"Invalid references {ref1}, {ref2} at node
{node_index}"` of `validate_references`. -/
def refMsg2 (r1 r2 : Int) (k : Nat) : List Char :=
  "Invalid references ".toList ++ intToChars r1 ++ ", ".toList ++ intToChars r2 ++
    " at node ".toList ++ natToChars k

/-- The per-line loop of `validate_syntax` (lines 77-96 of eval.py),
over pattern table `tbl`: `i` is the 0-based index into `lines`,
`nodeCount` the number of matched lines so far.  After the loop, a zero
node count yields `"No valid operations found"`. -/
def synLoopT (tbl : List (List Atom)) :
    List (List Char) → Nat → Nat → Bool × Option (List Char)
  | [], _, nodeCount =>
    if nodeCount = 0 then (false, some noOpsMsg) else (true, none)
  | l :: rest, i, nodeCount =>
    let line := pyStrip l
    if line = [] then synLoopT tbl rest (i + 1) nodeCount
    else if lineMatchesT tbl line then synLoopT tbl rest (i + 1) (nodeCount + 1)
    else (false, some (synErrMsg i line))

/-- `validate_syntax(ir)` (eval.py lines 61-96), parameterised by the
pattern table: empty or all-whitespace input fails with `"Empty IR"`,
otherwise the stripped input is split at newlines and scanned. -/
def validateSynT (tbl : List (List Atom)) (ir : List Char) : Bool × Option (List Char) :=
  if ir = [] ∨ pyStrip ir = [] then (false, some emptyMsg)
  else synLoopT tbl (splitNL (pyStrip ir)) 0 0

/-- `validate_syntax(ir)` with the source's table. -/
def validateSyn : List Char → Bool × Option (List Char) :=
  validateSynT COMPACT_IR_PATTERNS

/-- Value of a string of decimal digits. -/
def digitsToNat (t : List Char) : Nat :=
  t.foldl (fun a c => 10 * a + (c.toNat - 48)) 0

/-- Python `int(token)` on a whitespace-free token: an optional sign
followed by at least one ASCII digit (digit-group underscores and
non-ASCII digits are not modelled); any other token raises
`ValueError`, modelled as `none`. -/
def pyInt (t : List Char) : Option Int :=
  if t.head? = some '-' then
    if t.tail ≠ [] ∧ t.tail.all Char.isDigit then some (-(digitsToNat t.tail : Int))
    else none
  else if t.head? = some '+' then
    if t.tail ≠ [] ∧ t.tail.all Char.isDigit then some ((digitsToNat t.tail : Int))
    else none
  else if t ≠ [] ∧ t.all Char.isDigit then some ((digitsToNat t : Int))
  else none

/-- The body of `validate_references`' loop for one non-blank stripped
line at node index `k` (eval.py lines 117-134): `none` models a raised
exception (`parts[0]` on an empty token list, or `int` on a non-numeric
token), `some none` a passed check, `some (some m)` the early failure
return with message `m`. -/
def lineRefCheck (line : List Char) (k : Nat) : Option (Option (List Char)) :=
  match pySplitWs line with
  | [] => none
  | op :: args =>
    if op = ['T'] ∨ op = ['R'] ∨ op = ['S', 'C'] then
      match args with
      | a1 :: _ =>
        match pyInt a1 with
        | none => none
        | some ref => if (k : Int) ≤ ref then some (some (refMsg1 ref k)) else some none
      | [] => some none
    else if op = ['U'] ∨ op = ['D'] ∨ op = ['I'] then
      match args with
      | a1 :: a2 :: _ =>
        match pyInt a1, pyInt a2 with
        | some r1, some r2 =>
          if (k : Int) ≤ r1 ∨ (k : Int) ≤ r2 then some (some (refMsg2 r1 r2 k))
          else some none
        | _, _ => none
      | _ => some none
    else some none

/-- The loop of `validate_references` (eval.py lines 112-136): blank
lines are skipped without consuming a node index; every non-blank line
increments the node index after its check. -/
def refsLoop : List (List Char) → Nat → Option (Bool × Option (List Char))
  | [], _ => some (true, none)
  | l :: rest, k =>
    let line := pyStrip l
    if line = [] then refsLoop rest k
    else
      match lineRefCheck line k with
      | none => none
      | some (some m) => some (false, some m)
      | some none => refsLoop rest (k + 1)

/-- `validate_references(ir)` (eval.py lines 99-138); `none` models a
raised exception. -/
def validateReferences (ir : List Char) : Option (Bool × Option (List Char)) :=
  refsLoop (splitNL (pyStrip ir)) 0

/-- The combined validity check of `evaluate_single` (eval.py lines
200-205): syntax first; on syntax success the reference verdict
replaces it when the latter fails. -/
def isIrValid (ir : List Char) : Option (Bool × Option (List Char)) :=
  let s := validateSyn ir
  if s.1 then
    match validateReferences ir with
    | none => none
    | some r => if r.1 then some (true, s.2) else some (false, r.2)
  else some (false, s.2)

/-- Exact-match scoring of `evaluate_single` (eval.py lines 207-210):
equality of the two strings after stripping each. -/
def exact_match (target generated : List Char) : Bool :=
  decide (pyStrip target = pyStrip generated)

/-- The histogram key of `evaluate_model` (eval.py line 270):
`error_message.split(":")[0]`, the text before the first colon. -/
def histKey (m : List Char) : List Char := m.takeWhile fun c => c != ':'

/-- The `EvalMetrics` dataclass (eval.py lines 36-44), with the
source's defaults; `syn_valid` embeds the field `syntax_valid`. -/
structure EvalMetrics where
  syn_valid : Bool
  geometry_valid : Option Bool := none
  exact_match : Bool := false
  generated_ir : List Char := []
  error_message : Option (List Char) := none
deriving DecidableEq

/-- The `AggregateMetrics` dataclass (eval.py lines 47-58); `syn_valid`
and `syn_accuracy` embed `syntax_valid` and `syntax_accuracy`; float
division is modelled by exact rational division. -/
structure AggregateMetrics where
  total : Nat
  syn_valid : Nat
  geometry_valid : Nat
  exact_match : Nat
  syn_accuracy : ℚ
  geometry_accuracy : ℚ
  exact_match_accuracy : ℚ
  errors : List (List Char × Nat)
deriving DecidableEq

/-- `errors[error_type] = errors.get(error_type, 0) + 1` on an
insertion-ordered association list, as a Python dict behaves. -/
def bump (d : List (List Char × Nat)) (key : List Char) : List (List Char × Nat) :=
  match d with
  | [] => [(key, 1)]
  | (k, v) :: rest => if k = key then (k, v + 1) :: rest else (k, v) :: bump rest key

/-- The error histogram built by `evaluate_model`'s loop (eval.py lines
269-271): a truthy (non-`None`, nonempty) message is bucketed under the
text before its first colon. -/
def buildErrors (results : List EvalMetrics) : List (List Char × Nat) :=
  results.foldl
    (fun d r =>
      match r.error_message with
      | some m => if m = [] then d else bump d (histKey m)
      | none => d)
    []

/-- The aggregation of `evaluate_model` (eval.py lines 260-290) over
completed per-example results: counts, `count / total` accuracies with
`0` at zero total, and the error histogram. -/
def aggregate (results : List EvalMetrics) : AggregateMetrics :=
  let total := results.length
  let sv := (results.filter fun r => r.syn_valid).length
  let gv := (results.filter fun r => decide (r.geometry_valid = some true)).length
  let em := (results.filter fun r => r.exact_match).length
  { total := total
    syn_valid := sv
    geometry_valid := gv
    exact_match := em
    syn_accuracy := if 0 < total then (sv : ℚ) / (total : ℚ) else 0
    geometry_accuracy := if 0 < total then (gv : ℚ) / (total : ℚ) else 0
    exact_match_accuracy := if 0 < total then (em : ℚ) / (total : ℚ) else 0
    errors := buildErrors results }

/-- The dictionary returned by `compute_metrics`; `syn_accuracy` embeds
the key `"syntax_accuracy"`. -/
structure MetricsDict where
  syn_accuracy : ℚ
  geometry_accuracy : ℚ
  exact_match_accuracy : ℚ
deriving DecidableEq

/-- `compute_metrics(eval_results)` (eval.py lines 293-323). -/
def compute_metrics (eval_results : List EvalMetrics) : MetricsDict :=
  let total := eval_results.length
  if total = 0 then { syn_accuracy := 0, geometry_accuracy := 0, exact_match_accuracy := 0 }
  else
    { syn_accuracy := (((eval_results.filter fun r => r.syn_valid).length : ℚ) / (total : ℚ))
      geometry_accuracy :=
        (((eval_results.filter fun r => decide (r.geometry_valid = some true)).length : ℚ) /
          (total : ℚ))
      exact_match_accuracy :=
        (((eval_results.filter fun r => r.exact_match).length : ℚ) / (total : ℚ)) }

/-- The non-blank stripped lines of `ir`, in order; claim C1's node
index of a line is its position in this list. -/
def nonBlankLines (ir : List Char) : List (List Char) :=
  ((splitNL (pyStrip ir)).map pyStrip).filter fun l => !l.isEmpty

/-- Claim-side predicate of C1, following the claim's words: the line,
sitting at node index `k`, has opcode `T`/`R`/`SC` with first-operand
value at least `k`, or opcode `U`/`D`/`I` with first- or second-operand
value at least `k`. -/
def specBadLine (line : List Char) (k : Nat) : Bool :=
  match pySplitWs line with
  | op :: a1 :: rest =>
    if op = ['T'] ∨ op = ['R'] ∨ op = ['S', 'C'] then decide (k ≤ digitsToNat a1)
    else if op = ['U'] ∨ op = ['D'] ∨ op = ['I'] then
      decide (k ≤ digitsToNat a1) ||
        (match rest with
         | a2 :: _ => decide (k ≤ digitsToNat a2)
         | [] => false)
    else false
  | _ => false

/-- Claim-side scan of C1 over the non-blank lines starting at node
index `k`. -/
def specAnyBad : List (List Char) → Nat → Bool
  | [], _ => false
  | l :: rest, k => specBadLine l k || specAnyBad rest (k + 1)

/-- Claim-side condition of C1: some non-blank line of `ir` holds a
reference at or beyond its own node index. -/
def specHasBadRef (ir : List Char) : Bool :=
  specAnyBad (nonBlankLines ir) 0

/-- The two message shapes of the `DanglingReference` error kind. -/
def danglingShape (m : List Char) : Prop :=
  (∃ r k, m = refMsg1 r k) ∨ (∃ r1 r2 k, m = refMsg2 r1 r2 k)

/-- Operand shapes appearing in the pattern table: an unsigned decimal
(`[\d.]+`), a node reference (`\d+`), a signed decimal (`-?[\d.]+`). -/
inductive Tok
  | num | ref | snum
deriving DecidableEq

/-- The atoms of one operand together with its separating `\s+`. -/
def tokAtoms : Tok → List Atom
  | .num => [.digitsDot]
  | .ref => [.digits]
  | .snum => [.optMinus, .digitsDot]

/-- Characters allowed in a token of each operand shape. -/
def tokChar : Tok → Char → Bool
  | .num, c => isDigitDot c
  | .ref, c => c.isDigit
  | .snum, c => isDigitDot c || c = '-'

/-- A pattern of the table in opcode-then-operands form: the opcode's
literal characters, then each operand preceded by `\s+`. -/
def patOf (ops : List Char) (toks : List Tok) : List Atom :=
  ops.map .lit ++ (toks.map fun t => Atom.ws :: tokAtoms t).flatten

/-- A well-formed token of operand shape `t`: nonempty, all characters
in the shape's class. -/
def tokOk (t : Tok) (tk : List Char) : Prop :=
  tk ≠ [] ∧ ∀ c ∈ tk, tokChar t c = true

theorem splitWsAux_nonws (t : List Char) :
    ∀ (s acc : List Char), (∀ c ∈ t, isPySpace c = false) →
      splitWsAux (t ++ s) acc = splitWsAux s (t.reverse ++ acc) := by
  induction t with
  | nil => intro s acc _; simp
  | cons c t ih =>
    intro s acc h
    have hc : isPySpace c = false := h c (List.mem_cons_self c t)
    simp only [List.cons_append, splitWsAux, hc, Bool.false_eq_true, if_false,
      List.append_eq]
    rw [ih s (c :: acc) fun d hd => h d (List.mem_cons_of_mem c hd)]
    simp

theorem pySplitWs_ws_skip (w : List Char) :
    ∀ s : List Char, (∀ c ∈ w, isPySpace c = true) →
      pySplitWs (w ++ s) = pySplitWs s := by
  induction w with
  | nil => intro s _; rfl
  | cons c w ih =>
    intro s h
    have hc : isPySpace c = true := h c (List.mem_cons_self c w)
    simp only [pySplitWs, List.cons_append, splitWsAux, hc, if_true, if_pos rfl]
    exact ih s fun d hd => h d (List.mem_cons_of_mem c hd)

theorem pySplitWs_token (t s : List Char) (ht : t ≠ [])
    (hall : ∀ c ∈ t, isPySpace c = false)
    (hs : ∀ c, s.head? = some c → isPySpace c = true) :
    pySplitWs (t ++ s) = t :: pySplitWs s := by
  have h1 : pySplitWs (t ++ s) = splitWsAux s t.reverse := by
    simp only [pySplitWs]
    rw [splitWsAux_nonws t s [] hall]
    simp
  rw [h1]
  have hrev : t.reverse ≠ [] := by simpa using ht
  cases s with
  | nil =>
    simp only [splitWsAux, if_neg hrev, List.reverse_reverse]
    rfl
  | cons c s' =>
    have hc : isPySpace c = true := hs c rfl
    simp only [splitWsAux, hc, if_true, if_neg hrev, List.reverse_reverse, if_pos rfl]
    simp [pySplitWs, splitWsAux, hc]

theorem matchSeq_cons_eq (a : Atom) (p : List Atom) (s : List Char) :
    matchSeq (a :: p) s = (matchAtom a s).bind (matchSeq p) := by
  simp only [matchSeq]
  cases matchAtom a s <;> rfl

theorem matchSeq_append (p : List Atom) :
    ∀ (q : List Atom) (s : List Char),
      matchSeq (p ++ q) s = (matchSeq p s).bind (matchSeq q) := by
  induction p with
  | nil => intro q s; rfl
  | cons a p ih =>
    intro q s
    simp only [List.cons_append, matchSeq]
    cases matchAtom a s with
    | none => rfl
    | some r => exact ih q r

theorem matchClass_some {cls : Char → Bool} {s r : List Char}
    (h : matchClass cls s = some r) :
    ∃ tk, tk ≠ [] ∧ (∀ c ∈ tk, cls c = true) ∧ s = tk ++ r := by
  by_cases he : s.takeWhile cls = []
  · simp [matchClass, he] at h
  · refine ⟨s.takeWhile cls, he, fun c hc => List.mem_takeWhile_imp hc, ?_⟩
    simp only [matchClass, if_neg he, Option.some.injEq] at h
    rw [← h, List.takeWhile_append_dropWhile]

theorem matchClass_head {cls : Char → Bool} {s r : List Char}
    (h : matchClass cls s = some r) :
    ∃ c s', s = c :: s' ∧ cls c = true := by
  obtain ⟨tk, hne, hall, heq⟩ := matchClass_some h
  cases tk with
  | nil => exact absurd rfl hne
  | cons c tk' => exact ⟨c, tk' ++ r, by simpa using heq, hall c (List.mem_cons_self c tk')⟩

theorem matchAtom_lit {ch : Char} {s r : List Char}
    (h : matchAtom (.lit ch) s = some r) : s = ch :: r := by
  cases s with
  | nil => simp [matchAtom] at h
  | cons d s' =>
    simp only [matchAtom] at h
    by_cases hd : d = ch
    · rw [if_pos hd] at h
      rw [hd, Option.some.inj h]
    · rw [if_neg hd] at h
      exact absurd h (by simp)

theorem matchSeq_lits (ops : List Char) :
    ∀ (s r : List Char), matchSeq (ops.map Atom.lit) s = some r → s = ops ++ r := by
  induction ops with
  | nil =>
    intro s r h
    simp only [List.map_nil, matchSeq, Option.some.injEq] at h
    rw [h]; rfl
  | cons c ops ih =>
    intro s r h
    simp only [List.map_cons, matchSeq] at h
    cases ha : matchAtom (.lit c) s with
    | none => rw [ha] at h; exact absurd h (by simp)
    | some r1 =>
      rw [ha] at h
      rw [matchAtom_lit ha, ih r1 r h]
      rfl

theorem matchClass_tok {cls : Char → Bool} {t : Tok} {r r2 : List Char}
    (hsub : ∀ c, cls c = true → tokChar t c = true)
    (h : (matchClass cls r).bind (matchSeq []) = some r2) :
    ∃ tk, tk ≠ [] ∧ (∀ c ∈ tk, tokChar t c = true) ∧ r = tk ++ r2 := by
  cases hc : matchClass cls r with
  | none => rw [hc] at h; exact absurd h (by simp)
  | some r' =>
    rw [hc] at h
    simp only [Option.some_bind, matchSeq, Option.some.injEq] at h
    subst h
    obtain ⟨tk, hne, hall, heq⟩ := matchClass_some hc
    exact ⟨tk, hne, fun c hcm => hsub c (hall c hcm), heq⟩

theorem matchSeq_tok {t : Tok} {r r2 : List Char}
    (h : matchSeq (tokAtoms t) r = some r2) :
    ∃ tk, tk ≠ [] ∧ (∀ c ∈ tk, tokChar t c = true) ∧ r = tk ++ r2 := by
  cases t with
  | num =>
    rw [show tokAtoms Tok.num = [Atom.digitsDot] from rfl, matchSeq_cons_eq] at h
    exact matchClass_tok (fun c hc => hc) h
  | ref =>
    rw [show tokAtoms Tok.ref = [Atom.digits] from rfl, matchSeq_cons_eq] at h
    exact matchClass_tok (fun c hc => hc) h
  | snum =>
    rw [show tokAtoms Tok.snum = [Atom.optMinus, Atom.digitsDot] from rfl,
      matchSeq_cons_eq] at h
    by_cases hm : r.head? = some '-'
    · rw [show matchAtom Atom.optMinus r = some r.tail from by
        simp [matchAtom, hm]] at h
      simp only [Option.some_bind, matchSeq_cons_eq] at h
      cases r with
      | nil => simp at hm
      | cons c r' =>
        simp only [List.head?_cons, Option.some.injEq] at hm
        subst hm
        simp only [List.tail_cons] at h
        obtain ⟨tk, hne, hall, heq⟩ :=
          @matchClass_tok isDigitDot Tok.snum _ _ (fun c hc => by simp [tokChar, hc]) h
        refine ⟨'-' :: tk, by simp, ?_, by rw [heq]; rfl⟩
        intro c hc'
        rcases List.mem_cons.mp hc' with rfl | hmem
        · rfl
        · exact hall c hmem
    · rw [show matchAtom Atom.optMinus r = some r from by
        simp [matchAtom, hm]] at h
      simp only [Option.some_bind, matchSeq_cons_eq] at h
      exact @matchClass_tok isDigitDot Tok.snum _ _ (fun c hc => by simp [tokChar, hc]) h

theorem isPySpace_not_tokChar {c : Char} (h : isPySpace c = true) (t : Tok) :
    tokChar t c = false := by
  simp only [isPySpace, Bool.or_eq_true, decide_eq_true_eq] at h
  rcases h with ((((rfl | rfl) | rfl) | rfl) | rfl) | rfl <;> cases t <;> rfl

theorem tokChar_not_ws {t : Tok} {c : Char} (h : tokChar t c = true) :
    isPySpace c = false := by
  by_cases hw : isPySpace c = true
  · rw [isPySpace_not_tokChar hw t] at h; exact absurd h (by simp)
  · simpa using hw

theorem matchSeq_chunks (toks : List Tok) :
    ∀ r : List Char,
      matchSeq ((toks.map fun t => Atom.ws :: tokAtoms t).flatten) r = some [] →
      List.Forall₂ tokOk toks (pySplitWs r) := by
  induction toks with
  | nil =>
    intro r h
    simp only [List.map_nil, List.flatten_nil, matchSeq, Option.some.injEq] at h
    subst h
    exact List.Forall₂.nil
  | cons t ts ih =>
    intro r h
    simp only [List.map_cons, List.flatten_cons, List.cons_append, matchSeq_cons_eq,
      matchSeq_append] at h
    cases hw : matchAtom Atom.ws r with
    | none => rw [hw] at h; exact absurd h (by simp)
    | some r1 =>
      rw [hw] at h
      simp only [Option.some_bind] at h
      cases hmid : matchSeq (tokAtoms t) r1 with
      | none => rw [hmid] at h; exact absurd h (by simp)
      | some r2 =>
        rw [hmid] at h
        simp only [Option.some_bind] at h
        obtain ⟨w, hwne, hwall, hr⟩ := matchClass_some hw
        obtain ⟨tk, htkne, htkall, hr1⟩ := matchSeq_tok hmid
        have hr2head : ∀ c, r2.head? = some c → isPySpace c = true := by
          intro c hc
          cases ts with
          | nil =>
            simp only [List.map_nil, List.flatten_nil, matchSeq, Option.some.injEq] at h
            subst h
            simp at hc
          | cons t' ts' =>
            simp only [List.map_cons, List.flatten_cons, List.cons_append,
              matchSeq_cons_eq, matchSeq_append] at h
            cases hw2 : matchAtom Atom.ws r2 with
            | none => rw [hw2] at h; exact absurd h (by simp)
            | some r3 =>
              obtain ⟨c', s', heq, hc'⟩ := matchClass_head hw2
              rw [heq] at hc
              simp only [List.head?_cons, Option.some.injEq] at hc
              exact hc ▸ hc'
        have hsplit : pySplitWs r = tk :: pySplitWs r2 := by
          rw [hr, hr1]
          rw [pySplitWs_ws_skip w (tk ++ r2) hwall]
          exact pySplitWs_token tk r2 htkne (fun c hc => tokChar_not_ws (htkall c hc)) hr2head
        rw [hsplit]
        exact List.Forall₂.cons ⟨htkne, htkall⟩ (ih r2 h)

theorem matchAtoms_patOf {ops : List Char} {toks : List Tok} {s : List Char}
    (hne : ops ≠ []) (hws : ∀ c ∈ ops, isPySpace c = false)
    (h : matchAtoms (patOf ops toks) s = true) :
    ∃ ts, pySplitWs s = ops :: ts ∧ List.Forall₂ tokOk toks ts := by
  have hseq : matchSeq (patOf ops toks) s = some [] := by
    unfold matchAtoms at h
    cases hm : matchSeq (patOf ops toks) s with
    | none => rw [hm] at h; exact absurd h (by simp)
    | some r =>
      rw [hm] at h
      have hr : r = [] := List.isEmpty_iff.mp h
      rw [hr]
  unfold patOf at hseq
  rw [matchSeq_append] at hseq
  cases hl : matchSeq (ops.map Atom.lit) s with
  | none => rw [hl] at hseq; exact absurd hseq (by simp)
  | some r0 =>
    rw [hl] at hseq
    simp only [Option.some_bind] at hseq
    have hs : s = ops ++ r0 := matchSeq_lits ops s r0 hl
    have hr0head : ∀ c, r0.head? = some c → isPySpace c = true := by
      intro c hc
      cases toks with
      | nil =>
        simp only [List.map_nil, List.flatten_nil, matchSeq, Option.some.injEq] at hseq
        subst hseq
        simp at hc
      | cons t' ts' =>
        simp only [List.map_cons, List.flatten_cons, List.cons_append,
          matchSeq_cons_eq, matchSeq_append] at hseq
        cases hw2 : matchAtom Atom.ws r0 with
        | none => rw [hw2] at hseq; exact absurd hseq (by simp)
        | some r3 =>
          obtain ⟨c', s', heq, hc'⟩ := matchClass_head hw2
          rw [heq] at hc
          simp only [List.head?_cons, Option.some.injEq] at hc
          exact hc ▸ hc'
    refine ⟨pySplitWs r0, ?_, matchSeq_chunks toks r0 hseq⟩
    rw [hs]
    exact pySplitWs_token ops r0 hne hws hr0head

theorem cube_split {s : List Char} (h : matchAtoms cubePattern s = true) :
    ∃ ts, pySplitWs s = ['C'] :: ts ∧
      List.Forall₂ tokOk [Tok.num, Tok.num, Tok.num] ts :=
  matchAtoms_patOf (by decide) (by decide) h

theorem cylinder_split {s : List Char} (h : matchAtoms cylinderPattern s = true) :
    ∃ ts, pySplitWs s = ['Y'] :: ts ∧ List.Forall₂ tokOk [Tok.num, Tok.num] ts :=
  matchAtoms_patOf (by decide) (by decide) h

theorem sphere_split {s : List Char} (h : matchAtoms spherePattern s = true) :
    ∃ ts, pySplitWs s = ['S'] :: ts ∧ List.Forall₂ tokOk [Tok.num] ts :=
  matchAtoms_patOf (by decide) (by decide) h

theorem cone_split {s : List Char} (h : matchAtoms conePattern s = true) :
    ∃ ts, pySplitWs s = ['K'] :: ts ∧
      List.Forall₂ tokOk [Tok.num, Tok.num, Tok.num] ts :=
  matchAtoms_patOf (by decide) (by decide) h

theorem translate_split {s : List Char} (h : matchAtoms translatePattern s = true) :
    ∃ ts, pySplitWs s = ['T'] :: ts ∧
      List.Forall₂ tokOk [Tok.ref, Tok.snum, Tok.snum, Tok.snum] ts :=
  matchAtoms_patOf (by decide) (by decide) h

theorem rotate_split {s : List Char} (h : matchAtoms rotatePattern s = true) :
    ∃ ts, pySplitWs s = ['R'] :: ts ∧
      List.Forall₂ tokOk [Tok.ref, Tok.snum, Tok.snum, Tok.snum] ts :=
  matchAtoms_patOf (by decide) (by decide) h

theorem scale_split {s : List Char} (h : matchAtoms scalePattern s = true) :
    ∃ ts, pySplitWs s = ['S', 'C'] :: ts ∧
      List.Forall₂ tokOk [Tok.ref, Tok.num, Tok.num, Tok.num] ts :=
  matchAtoms_patOf (by decide) (by decide) h

theorem union_split {s : List Char} (h : matchAtoms unionPattern s = true) :
    ∃ ts, pySplitWs s = ['U'] :: ts ∧ List.Forall₂ tokOk [Tok.ref, Tok.ref] ts :=
  matchAtoms_patOf (by decide) (by decide) h

theorem difference_split {s : List Char} (h : matchAtoms differencePattern s = true) :
    ∃ ts, pySplitWs s = ['D'] :: ts ∧ List.Forall₂ tokOk [Tok.ref, Tok.ref] ts :=
  matchAtoms_patOf (by decide) (by decide) h

theorem intersection_split {s : List Char} (h : matchAtoms intersectionPattern s = true) :
    ∃ ts, pySplitWs s = ['I'] :: ts ∧ List.Forall₂ tokOk [Tok.ref, Tok.ref] ts :=
  matchAtoms_patOf (by decide) (by decide) h

theorem tokOk_cons {t : Tok} {ts : List Tok} {l : List (List Char)}
    (h : List.Forall₂ tokOk (t :: ts) l) :
    ∃ tk l', l = tk :: l' ∧ tokOk t tk ∧ List.Forall₂ tokOk ts l' := by
  obtain ⟨b, u, hb, hu, heq⟩ := List.forall₂_cons_left_iff.mp h
  exact ⟨b, u, heq, hb, hu⟩

theorem tokOk_nil {l : List (List Char)} (h : List.Forall₂ tokOk [] l) : l = [] := by
  cases h
  rfl

theorem pyInt_digits (t : List Char) (hne : t ≠ [])
    (hd : ∀ c ∈ t, c.isDigit = true) :
    pyInt t = some ((digitsToNat t : Int)) := by
  have hall : t.all Char.isDigit = true := List.all_eq_true.mpr hd
  cases t with
  | nil => exact absurd rfl hne
  | cons c t' =>
    have hc : c.isDigit = true := hd c (List.mem_cons_self c t')
    have hm : ¬((c :: t').head? = some '-') := by
      simp only [List.head?_cons, Option.some.injEq]
      intro hcm
      rw [hcm] at hc
      exact absurd hc (by decide)
    have hp : ¬((c :: t').head? = some '+') := by
      simp only [List.head?_cons, Option.some.injEq]
      intro hcm
      rw [hcm] at hc
      exact absurd hc (by decide)
    unfold pyInt
    rw [if_neg hm, if_neg hp, if_pos ⟨hne, hall⟩]

theorem refCase1 (line : List Char) (k : Nat) (op a1 : List Char)
    (rest : List (List Char))
    (hop : op = ['T'] ∨ op = ['R'] ∨ op = ['S', 'C'])
    (hsplit : pySplitWs line = op :: a1 :: rest)
    (hne : a1 ≠ []) (hd : ∀ c ∈ a1, c.isDigit = true) :
    (specBadLine line k = true ∧
      ∃ m, lineRefCheck line k = some (some m) ∧ danglingShape m)
    ∨ (specBadLine line k = false ∧ lineRefCheck line k = some none) := by
  have hint : pyInt a1 = some ((digitsToNat a1 : Int)) := pyInt_digits a1 hne hd
  have hspec : specBadLine line k = decide (k ≤ digitsToNat a1) := by
    unfold specBadLine
    rw [hsplit]
    simp only [if_pos hop]
  have hcheck :
      lineRefCheck line k =
        if (k : Int) ≤ (digitsToNat a1 : Int)
        then some (some (refMsg1 (digitsToNat a1) k)) else some none := by
    unfold lineRefCheck
    rw [hsplit]
    simp only [if_pos hop, hint]
  by_cases hk : k ≤ digitsToNat a1
  · left
    refine ⟨by rw [hspec]; exact decide_eq_true hk,
      refMsg1 (digitsToNat a1) k, ?_, Or.inl ⟨_, _, rfl⟩⟩
    rw [hcheck, if_pos (Int.ofNat_le.mpr hk)]
  · right
    refine ⟨by rw [hspec]; exact decide_eq_false hk, ?_⟩
    rw [hcheck, if_neg fun hc => hk (Int.ofNat_le.mp hc)]

theorem refCase2 (line : List Char) (k : Nat) (op a1 a2 : List Char)
    (rest : List (List Char))
    (hop2 : op = ['U'] ∨ op = ['D'] ∨ op = ['I'])
    (hop1 : ¬(op = ['T'] ∨ op = ['R'] ∨ op = ['S', 'C']))
    (hsplit : pySplitWs line = op :: a1 :: a2 :: rest)
    (hne1 : a1 ≠ []) (hd1 : ∀ c ∈ a1, c.isDigit = true)
    (hne2 : a2 ≠ []) (hd2 : ∀ c ∈ a2, c.isDigit = true) :
    (specBadLine line k = true ∧
      ∃ m, lineRefCheck line k = some (some m) ∧ danglingShape m)
    ∨ (specBadLine line k = false ∧ lineRefCheck line k = some none) := by
  have hint1 : pyInt a1 = some ((digitsToNat a1 : Int)) := pyInt_digits a1 hne1 hd1
  have hint2 : pyInt a2 = some ((digitsToNat a2 : Int)) := pyInt_digits a2 hne2 hd2
  have hspec : specBadLine line k =
      (decide (k ≤ digitsToNat a1) || decide (k ≤ digitsToNat a2)) := by
    unfold specBadLine
    rw [hsplit]
    simp only [if_neg hop1, if_pos hop2]
  have hcheck :
      lineRefCheck line k =
        if (k : Int) ≤ (digitsToNat a1 : Int) ∨ (k : Int) ≤ (digitsToNat a2 : Int)
        then some (some (refMsg2 (digitsToNat a1) (digitsToNat a2) k)) else some none := by
    unfold lineRefCheck
    rw [hsplit]
    simp only [if_neg hop1, if_pos hop2, hint1, hint2]
  by_cases hk : k ≤ digitsToNat a1 ∨ k ≤ digitsToNat a2
  · left
    refine ⟨?_, refMsg2 (digitsToNat a1) (digitsToNat a2) k, ?_,
      Or.inr ⟨_, _, _, rfl⟩⟩
    · rw [hspec]
      rcases hk with hk | hk
      · rw [decide_eq_true hk]; rfl
      · rw [decide_eq_true hk]; simp
    · rw [hcheck,
        if_pos (hk.imp (fun h => Int.ofNat_le.mpr h) (fun h => Int.ofNat_le.mpr h))]
  · right
    push_neg at hk
    refine ⟨?_, ?_⟩
    · rw [hspec, decide_eq_false (by omega : ¬k ≤ digitsToNat a1),
        decide_eq_false (by omega : ¬k ≤ digitsToNat a2)]
      rfl
    · rw [hcheck, if_neg ?_]
      rintro (hc | hc)
      · exact absurd (Int.ofNat_le.mp hc) (by omega)
      · exact absurd (Int.ofNat_le.mp hc) (by omega)

theorem noRefCase (line : List Char) (k : Nat) (op : List Char)
    (args : List (List Char))
    (hop1 : ¬(op = ['T'] ∨ op = ['R'] ∨ op = ['S', 'C']))
    (hop2 : ¬(op = ['U'] ∨ op = ['D'] ∨ op = ['I']))
    (hsplit : pySplitWs line = op :: args) :
    specBadLine line k = false ∧ lineRefCheck line k = some none := by
  constructor
  · unfold specBadLine
    rw [hsplit]
    cases args with
    | nil => rfl
    | cons a1 rest => simp only [if_neg hop1, if_neg hop2]
  · unfold lineRefCheck
    rw [hsplit]
    simp only [if_neg hop1, if_neg hop2]

theorem lineRefCheck_spec (line : List Char) (k : Nat)
    (h : lineMatches line = true) :
    (specBadLine line k = true ∧
      ∃ m, lineRefCheck line k = some (some m) ∧ danglingShape m)
    ∨ (specBadLine line k = false ∧ lineRefCheck line k = some none) := by
  simp only [lineMatches, lineMatchesT, COMPACT_IR_PATTERNS, List.any_cons,
    List.any_nil, Bool.or_eq_true, Bool.or_false] at h
  rcases h with h | h | h | h | h | h | h | h | h | h
  · obtain ⟨ts, hsplit, hf⟩ := cube_split h
    exact Or.inr (noRefCase line k _ _ (by decide) (by decide) hsplit)
  · obtain ⟨ts, hsplit, hf⟩ := cylinder_split h
    exact Or.inr (noRefCase line k _ _ (by decide) (by decide) hsplit)
  · obtain ⟨ts, hsplit, hf⟩ := sphere_split h
    exact Or.inr (noRefCase line k _ _ (by decide) (by decide) hsplit)
  · obtain ⟨ts, hsplit, hf⟩ := cone_split h
    exact Or.inr (noRefCase line k _ _ (by decide) (by decide) hsplit)
  · obtain ⟨ts, hsplit, hf⟩ := translate_split h
    obtain ⟨a1, ts, rfl, h1, hf⟩ := tokOk_cons hf
    exact refCase1 line k _ a1 _ (by decide) hsplit h1.1 h1.2
  · obtain ⟨ts, hsplit, hf⟩ := rotate_split h
    obtain ⟨a1, ts, rfl, h1, hf⟩ := tokOk_cons hf
    exact refCase1 line k _ a1 _ (by decide) hsplit h1.1 h1.2
  · obtain ⟨ts, hsplit, hf⟩ := scale_split h
    obtain ⟨a1, ts, rfl, h1, hf⟩ := tokOk_cons hf
    exact refCase1 line k _ a1 _ (by decide) hsplit h1.1 h1.2
  · obtain ⟨ts, hsplit, hf⟩ := union_split h
    obtain ⟨a1, ts, rfl, h1, hf⟩ := tokOk_cons hf
    obtain ⟨a2, ts, rfl, h2, hf⟩ := tokOk_cons hf
    exact refCase2 line k _ a1 a2 _ (by decide) (by decide) hsplit h1.1 h1.2 h2.1 h2.2
  · obtain ⟨ts, hsplit, hf⟩ := difference_split h
    obtain ⟨a1, ts, rfl, h1, hf⟩ := tokOk_cons hf
    obtain ⟨a2, ts, rfl, h2, hf⟩ := tokOk_cons hf
    exact refCase2 line k _ a1 a2 _ (by decide) (by decide) hsplit h1.1 h1.2 h2.1 h2.2
  · obtain ⟨ts, hsplit, hf⟩ := intersection_split h
    obtain ⟨a1, ts, rfl, h1, hf⟩ := tokOk_cons hf
    obtain ⟨a2, ts, rfl, h2, hf⟩ := tokOk_cons hf
    exact refCase2 line k _ a1 a2 _ (by decide) (by decide) hsplit h1.1 h1.2 h2.1 h2.2

theorem synLoopT_matches (tbl : List (List Atom)) (ls : List (List Char)) :
    ∀ (i n : Nat), (synLoopT tbl ls i n).1 = true →
      ∀ l ∈ ls, pyStrip l ≠ [] → lineMatchesT tbl (pyStrip l) = true := by
  induction ls with
  | nil => intro i n _ l hl; exact absurd hl (List.not_mem_nil l)
  | cons l0 rest ih =>
    intro i n h l hl hne
    unfold synLoopT at h
    by_cases hb : pyStrip l0 = []
    · rw [if_pos hb] at h
      rcases List.mem_cons.mp hl with rfl | hmem
      · exact absurd hb hne
      · exact ih (i + 1) n h l hmem hne
    · rw [if_neg hb] at h
      by_cases hm : lineMatchesT tbl (pyStrip l0) = true
      · rw [if_pos hm] at h
        rcases List.mem_cons.mp hl with rfl | hmem
        · exact hm
        · exact ih (i + 1) (n + 1) h l hmem hne
      · rw [if_neg hm] at h
        exact absurd h (by simp)

theorem refsLoop_cons (l0 : List Char) (rest : List (List Char)) (k : Nat) :
    refsLoop (l0 :: rest) k =
      if pyStrip l0 = [] then refsLoop rest k
      else
        match lineRefCheck (pyStrip l0) k with
        | none => none
        | some (some m) => some (false, some m)
        | some none => refsLoop rest (k + 1) := rfl

theorem refsLoop_spec (ls : List (List Char)) :
    ∀ k : Nat, (∀ l ∈ ls, pyStrip l ≠ [] → lineMatches (pyStrip l) = true) →
      (specAnyBad ((ls.map pyStrip).filter fun l => !l.isEmpty) k = false →
        refsLoop ls k = some (true, none))
      ∧ (specAnyBad ((ls.map pyStrip).filter fun l => !l.isEmpty) k = true →
        ∃ m, refsLoop ls k = some (false, some m) ∧ danglingShape m) := by
  induction ls with
  | nil =>
    intro k _
    exact ⟨fun _ => rfl, fun h => absurd h (by simp [specAnyBad])⟩
  | cons l0 rest ih =>
    intro k hall
    have hrest : ∀ l ∈ rest, pyStrip l ≠ [] → lineMatches (pyStrip l) = true :=
      fun l hl => hall l (List.mem_cons_of_mem l0 hl)
    by_cases hb : pyStrip l0 = []
    · have hfe : (pyStrip l0).isEmpty = true := by rw [hb]; rfl
      have hfilter :
          ((l0 :: rest).map pyStrip).filter (fun l => !l.isEmpty) =
            (rest.map pyStrip).filter fun l => !l.isEmpty := by
        simp only [List.map_cons, List.filter_cons, hfe]
        rfl
      have hloop : refsLoop (l0 :: rest) k = refsLoop rest k := by
        rw [refsLoop_cons, if_pos hb]
      rw [hfilter, hloop]
      exact ih k hrest
    · have hm : lineMatches (pyStrip l0) = true :=
        hall l0 (List.mem_cons_self l0 rest) hb
      have hfe : (pyStrip l0).isEmpty = false := by
        cases hp : pyStrip l0 with
        | nil => exact absurd hp hb
        | cons c t => rfl
      have hfilter :
          ((l0 :: rest).map pyStrip).filter (fun l => !l.isEmpty) =
            pyStrip l0 :: ((rest.map pyStrip).filter fun l => !l.isEmpty) := by
        simp only [List.map_cons, List.filter_cons, hfe]
        rfl
      rw [hfilter]
      have hany : specAnyBad
          (pyStrip l0 :: ((rest.map pyStrip).filter fun l => !l.isEmpty)) k =
          (specBadLine (pyStrip l0) k ||
            specAnyBad ((rest.map pyStrip).filter fun l => !l.isEmpty) (k + 1)) := rfl
      rcases lineRefCheck_spec (pyStrip l0) k hm with ⟨hbad, m, hcheck, hshape⟩ |
        ⟨hok, hcheck⟩
      · have hloop : refsLoop (l0 :: rest) k = some (false, some m) := by
          rw [refsLoop_cons, if_neg hb, hcheck]
        constructor
        · intro hfalse
          rw [hany, hbad] at hfalse
          exact absurd hfalse (by simp)
        · intro _
          exact ⟨m, hloop, hshape⟩
      · have hloop : refsLoop (l0 :: rest) k = refsLoop rest (k + 1) := by
          rw [refsLoop_cons, if_neg hb, hcheck]
        rw [hany, hok, Bool.false_or, hloop]
        exact ih (k + 1) hrest

/-- C1: for every syntactically valid IR text, `validate_references`
succeeds iff no non-blank line has a `T`/`R`/`SC` first operand or a
`U`/`D`/`I` first or second operand whose integer value reaches its own
0-based node index (the count of non-blank lines before it); when some
line does, it fails with a `DanglingReference`-shaped message. -/
theorem C1_dangling_iff (ir : List Char) (h : (validateSyn ir).1 = true) :
    (validateReferences ir = some (true, none) ↔ specHasBadRef ir = false)
    ∧ (specHasBadRef ir = true →
        ∃ m, validateReferences ir = some (false, some m) ∧ danglingShape m) := by
  by_cases he : ir = [] ∨ pyStrip ir = []
  · rw [show validateSyn ir = (false, some emptyMsg) from by
      simp [validateSyn, validateSynT, he]] at h
    exact absurd h (by simp)
  · have hv : validateSyn ir = synLoopT COMPACT_IR_PATTERNS (splitNL (pyStrip ir)) 0 0 := by
      simp [validateSyn, validateSynT, he]
    rw [hv] at h
    have hall : ∀ l ∈ splitNL (pyStrip ir), pyStrip l ≠ [] →
        lineMatches (pyStrip l) = true :=
      synLoopT_matches COMPACT_IR_PATTERNS (splitNL (pyStrip ir)) 0 0 h
    have hspec := refsLoop_spec (splitNL (pyStrip ir)) 0 hall
    refine ⟨⟨?_, fun h0 => hspec.1 h0⟩, fun h1 => hspec.2 h1⟩
    intro hval
    cases hbool : specHasBadRef ir
    · rfl
    · obtain ⟨m, hm', _⟩ := hspec.2 hbool
      rw [show refsLoop (splitNL (pyStrip ir)) 0 = validateReferences ir from rfl,
        hval] at hm'
      exact absurd hm' (by simp)

/-- Witness for C1 at the spec's end-to-end scenario 1. -/
theorem C1_witness :
    validateReferences (("C 1.0 1.0 1.0\nS 0.5\nU 0 1").toList) = some (true, none) :=
  (C1_dangling_iff (("C 1.0 1.0 1.0\nS 0.5\nU 0 1").toList) (by decide)).1.mpr (by decide)

/-- C6: the combined validity check of `evaluate_single` is total: it
always returns a verdict (never the exception outcome `none`), and
whenever the reference pass is reached — i.e. the syntax pass accepted —
`validate_references` itself completes without an exception, all its
`int` conversions succeeding. -/
theorem C6_total (ir : List Char) :
    (isIrValid ir).isSome = true ∧
      ((validateSyn ir).1 = true → (validateReferences ir).isSome = true) := by
  have hrefs : (validateSyn ir).1 = true → (validateReferences ir).isSome = true := by
    intro h
    by_cases he : ir = [] ∨ pyStrip ir = []
    · rw [show validateSyn ir = (false, some emptyMsg) from by
        simp [validateSyn, validateSynT, he]] at h
      exact absurd h (by simp)
    · have hv : validateSyn ir = synLoopT COMPACT_IR_PATTERNS (splitNL (pyStrip ir)) 0 0 := by
        simp [validateSyn, validateSynT, he]
      rw [hv] at h
      have hall : ∀ l ∈ splitNL (pyStrip ir), pyStrip l ≠ [] →
          lineMatches (pyStrip l) = true :=
        synLoopT_matches COMPACT_IR_PATTERNS (splitNL (pyStrip ir)) 0 0 h
      have hspec := refsLoop_spec (splitNL (pyStrip ir)) 0 hall
      cases hbool : specAnyBad
          (((splitNL (pyStrip ir)).map pyStrip).filter fun l => !l.isEmpty) 0
      · rw [show validateReferences ir = refsLoop (splitNL (pyStrip ir)) 0 from rfl,
          hspec.1 hbool]
        rfl
      · obtain ⟨m, hm', _⟩ := hspec.2 hbool
        rw [show validateReferences ir = refsLoop (splitNL (pyStrip ir)) 0 from rfl, hm']
        rfl
  refine ⟨?_, hrefs⟩
  unfold isIrValid
  by_cases hs : (validateSyn ir).1 = true
  · rw [if_pos hs]
    obtain ⟨r, hr⟩ := Option.isSome_iff_exists.mp (hrefs hs)
    rw [hr]
    by_cases hr1 : r.1 = true <;> simp [hr1]
  · rw [if_neg hs]; rfl

theorem synLoopT_cons (tbl : List (List Atom)) (l0 : List Char)
    (rest : List (List Char)) (i n : Nat) :
    synLoopT tbl (l0 :: rest) i n =
      if pyStrip l0 = [] then synLoopT tbl rest (i + 1) n
      else if lineMatchesT tbl (pyStrip l0) then synLoopT tbl rest (i + 1) (n + 1)
      else (false, some (synErrMsg i (pyStrip l0))) := rfl

theorem getD_append_lt (l1 l2 : List (List Char)) (i : Nat) (h : i < l1.length) :
    (l1 ++ l2).getD i [] = l1.getD i [] := by
  unfold List.getD
  rw [List.get?_append h]

theorem getD_take_lt (l : List (List Char)) (i n : Nat) (h : i < n) :
    (l.take n).getD i [] = l.getD i [] := by
  unfold List.getD
  rw [List.get?_take h]

theorem synLoopT_first_bad (tbl : List (List Atom)) (ls : List (List Char)) :
    ∀ (idx i0 n : Nat), idx < ls.length →
      pyStrip (ls.getD idx []) ≠ [] →
      lineMatchesT tbl (pyStrip (ls.getD idx [])) = false →
      (∀ j, j < idx → ¬(pyStrip (ls.getD j []) ≠ [] ∧
        lineMatchesT tbl (pyStrip (ls.getD j [])) = false)) →
      synLoopT tbl ls i0 n =
        (false, some (synErrMsg (i0 + idx) (pyStrip (ls.getD idx [])))) := by
  induction ls with
  | nil => intro idx i0 n h; exact absurd h (by simp)
  | cons l0 rest ih =>
    intro idx i0 n hlt hne hnm hfirst
    cases idx with
    | zero =>
      rw [List.getD_cons_zero] at hne hnm ⊢
      rw [synLoopT_cons, if_neg hne, if_neg (by simp [hnm]), Nat.add_zero]
    | succ idx =>
      rw [List.getD_cons_succ] at hne hnm ⊢
      have hrec : ∀ n' : Nat, synLoopT tbl rest (i0 + 1) n' =
          (false, some (synErrMsg ((i0 + 1) + idx) (pyStrip (rest.getD idx [])))) := by
        intro n'
        refine ih idx (i0 + 1) n' (by simpa using hlt) hne hnm ?_
        intro j hj
        have hfj := hfirst (j + 1) (Nat.succ_lt_succ hj)
        rw [List.getD_cons_succ] at hfj
        exact hfj
      have harith : (i0 + 1) + idx = i0 + (idx + 1) := by omega
      by_cases hb : pyStrip l0 = []
      · rw [synLoopT_cons, if_pos hb, hrec n, harith]
      · have hm : lineMatchesT tbl (pyStrip l0) = true := by
          rcases Bool.eq_false_or_eq_true (lineMatchesT tbl (pyStrip l0)) with ht | hf
          · exact ht
          · have hf0 := hfirst 0 (Nat.succ_pos idx)
            rw [List.getD_cons_zero] at hf0
            exact absurd ⟨hb, hf⟩ hf0
        rw [synLoopT_cons, if_neg hb, if_pos hm, hrec (n + 1), harith]

/-- C2: when some line of the (stripped, newline-split) input is
non-blank and matches no grammar entry, `validate_syntax` fails at the
first such line `i` with the `SyntaxError` message naming the 1-based
line number `i + 1` and a ≤ 50-character excerpt, and the verdict is
already determined by the lines up to `i` — any continuation of the
line list yields the same result (first-error-wins). -/
theorem C2_first_error_wins (ir : List Char) (i : Nat)
    (hlt : i < (splitNL (pyStrip ir)).length)
    (hne : pyStrip ((splitNL (pyStrip ir)).getD i []) ≠ [])
    (hnm : lineMatches (pyStrip ((splitNL (pyStrip ir)).getD i [])) = false)
    (hfirst : ∀ j, j < i → ¬(pyStrip ((splitNL (pyStrip ir)).getD j []) ≠ [] ∧
      lineMatches (pyStrip ((splitNL (pyStrip ir)).getD j [])) = false)) :
    validateSyn ir =
      (false, some (synErrMsg i (pyStrip ((splitNL (pyStrip ir)).getD i []))))
    ∧ ((pyStrip ((splitNL (pyStrip ir)).getD i [])).take 50).length ≤ 50
    ∧ ∀ rest, synLoopT COMPACT_IR_PATTERNS
        ((splitNL (pyStrip ir)).take (i + 1) ++ rest) 0 0 =
        (false, some (synErrMsg i (pyStrip ((splitNL (pyStrip ir)).getD i [])))) := by
  have hs : pyStrip ir ≠ [] := by
    intro hs0
    rw [hs0] at hlt hne
    have hi : i = 0 := by simpa [splitNL] using hlt
    rw [hi] at hne
    exact hne (by rfl)
  have he : ¬(ir = [] ∨ pyStrip ir = []) := by
    rintro (rfl | h)
    · exact hs rfl
    · exact hs h
  have hv : validateSyn ir = synLoopT COMPACT_IR_PATTERNS (splitNL (pyStrip ir)) 0 0 := by
    simp [validateSyn, validateSynT, he]
  refine ⟨?_, ?_, ?_⟩
  · rw [hv]
    have := synLoopT_first_bad COMPACT_IR_PATTERNS (splitNL (pyStrip ir)) i 0 0
      hlt hne hnm hfirst
    rw [Nat.zero_add] at this
    exact this
  · rw [List.length_take]
    omega
  · intro rest
    have hlen : i < ((splitNL (pyStrip ir)).take (i + 1)).length := by
      rw [List.length_take]
      omega
    have hgetD : ∀ j, j < i + 1 →
        ((splitNL (pyStrip ir)).take (i + 1) ++ rest).getD j [] =
          (splitNL (pyStrip ir)).getD j [] := by
      intro j hj
      rw [getD_append_lt _ _ j (by rw [List.length_take]; omega), getD_take_lt _ j _ hj]
    have := synLoopT_first_bad COMPACT_IR_PATTERNS
      ((splitNL (pyStrip ir)).take (i + 1) ++ rest) i 0 0
      (by rw [List.length_append, List.length_take]; omega)
      (by rw [hgetD i (Nat.lt_succ_self i)]; exact hne)
      (by rw [hgetD i (Nat.lt_succ_self i)]; exact hnm)
      (by
        intro j hj
        rw [hgetD j (by omega)]
        exact hfirst j hj)
    rw [Nat.zero_add, hgetD i (Nat.lt_succ_self i)] at this
    exact this

/-- Witness for C2 at input `"C 1 1 1\nX"`, whose line at index 1 is the
first unmatched line. -/
theorem C2_witness :
    validateSyn (("C 1 1 1\nX").toList) =
      (false, some (synErrMsg 1 (pyStrip ((splitNL (pyStrip (("C 1 1 1\nX").toList))).getD 1 [])))) :=
  (C2_first_error_wins (("C 1 1 1\nX").toList) 1 (by decide) (by decide) (by decide)
    (by decide)).1

theorem pyStrip_eq_nil_iff (s : List Char) :
    pyStrip s = [] ↔ ∀ c ∈ s, isPySpace c = true := by
  constructor
  · intro h c hc
    unfold pyStrip at h
    have hA : ∀ c ∈ s.reverse.dropWhile isPySpace, isPySpace c = true := by
      intro d hd
      have hd' : d ∈ (s.reverse.dropWhile isPySpace).reverse := List.mem_reverse.mpr hd
      exact List.dropWhile_eq_nil_iff.mp h d hd'
    have hcrev : c ∈ s.reverse := List.mem_reverse.mpr hc
    rw [← List.takeWhile_append_dropWhile isPySpace s.reverse] at hcrev
    rcases List.mem_append.mp hcrev with h1 | h2
    · exact List.mem_takeWhile_imp h1
    · exact hA c h2
  · intro h
    unfold pyStrip
    have h1 : s.reverse.dropWhile isPySpace = [] :=
      List.dropWhile_eq_nil_iff.mpr fun c hc => h c (List.mem_reverse.mp hc)
    rw [h1]
    rfl

/-- C3: on an empty or all-whitespace input, `validate_syntax` fails
with the `EmptyInput` message `"Empty IR"`, and the combined check of
`evaluate_single` returns that verdict rather than raising. -/
theorem C3_empty_input (ir : List Char) (h : ∀ c ∈ ir, isPySpace c = true) :
    validateSyn ir = (false, some emptyMsg)
    ∧ isIrValid ir = some (false, some emptyMsg) := by
  have hs : pyStrip ir = [] := (pyStrip_eq_nil_iff ir).mpr h
  have hv : validateSyn ir = (false, some emptyMsg) := by
    unfold validateSyn validateSynT
    rw [if_pos (Or.inr hs)]
  refine ⟨hv, ?_⟩
  unfold isIrValid
  rw [hv]
  rfl

/-- Witness for C3 at a whitespace-only input. -/
theorem C3_witness :
    validateSyn (("  \n\t ").toList) = (false, some emptyMsg)
    ∧ isIrValid (("  \n\t ").toList) = some (false, some emptyMsg) :=
  C3_empty_input (("  \n\t ").toList) (by decide)

theorem synErrMsg_head (i : Nat) (l : List Char) :
    (synErrMsg i l).head? = some 'I' := rfl

theorem synErrMsg_ne_noOps (i : Nat) (l : List Char) : synErrMsg i l ≠ noOpsMsg := by
  intro h
  have hh := congrArg List.head? h
  rw [synErrMsg_head] at hh
  exact absurd hh (by decide)

theorem synLoopT_ne_noOps (tbl : List (List Atom)) (ls : List (List Char)) :
    ∀ (i n : Nat), (0 < n ∨ ∃ l ∈ ls, pyStrip l ≠ []) →
      (synLoopT tbl ls i n).2 ≠ some noOpsMsg := by
  induction ls with
  | nil =>
    intro i n hn
    rcases hn with hn | ⟨l, hl, _⟩
    · unfold synLoopT
      rw [if_neg (by omega)]
      simp
    · exact absurd hl (List.not_mem_nil l)
  | cons l0 rest ih =>
    intro i n hn
    rw [synLoopT_cons]
    by_cases hb : pyStrip l0 = []
    · rw [if_pos hb]
      refine ih (i + 1) n ?_
      rcases hn with hn | ⟨l, hl, hlne⟩
      · exact Or.inl hn
      · rcases List.mem_cons.mp hl with rfl | hmem
        · exact absurd hb hlne
        · exact Or.inr ⟨l, hmem, hlne⟩
    · rw [if_neg hb]
      by_cases hm : lineMatchesT tbl (pyStrip l0) = true
      · rw [if_pos hm]
        exact ih (i + 1) (n + 1) (Or.inl (Nat.succ_pos n))
      · rw [if_neg hm]
        intro hcontra
        exact synErrMsg_ne_noOps i (pyStrip l0) (Option.some.inj hcontra)

theorem dropWhile_head_false {p : Char → Bool} :
    ∀ {X : List Char} {c : Char} {t : List Char},
      X.dropWhile p = c :: t → p c = false := by
  intro X
  induction X with
  | nil => intro c t h; exact absurd h (by simp)
  | cons a X' ih =>
    intro c t h
    by_cases hp : p a = true
    · rw [List.dropWhile_cons_of_pos hp] at h
      exact ih h
    · rw [List.dropWhile_cons_of_neg hp] at h
      have hac : a = c := (List.cons.injEq a X' c t ▸ h).1
      rw [hac] at hp
      simpa using hp

theorem splitNL_ne_nil : ∀ s : List Char, splitNL s ≠ [] := by
  intro s
  cases s with
  | nil => simp [splitNL]
  | cons c t =>
    simp only [splitNL]
    cases splitNL t with
    | nil => simp
    | cons l0 ls =>
      by_cases hc : c = '\n' <;> simp [hc]

/-- C4: `validate_syntax` never returns the `NoValidOperations` message
`"No valid operations found"`: empty-ish input is caught as `EmptyInput`
first, and otherwise the first line of the stripped input is non-blank,
so the loop either matches it (node count becomes positive) or fails
with a `SyntaxError` before reaching the zero-count branch. -/
theorem C4_no_valid_ops_unreachable (ir : List Char) :
    decide ((validateSyn ir).2 = some noOpsMsg) = false := by
  rw [decide_eq_false_iff_not]
  intro hcontra
  by_cases he : ir = [] ∨ pyStrip ir = []
  · rw [show validateSyn ir = (false, some emptyMsg) from by
      simp [validateSyn, validateSynT, he]] at hcontra
    exact absurd hcontra (by decide)
  · have hv : validateSyn ir = synLoopT COMPACT_IR_PATTERNS (splitNL (pyStrip ir)) 0 0 := by
      simp [validateSyn, validateSynT, he]
    rw [hv] at hcontra
    have hsne : pyStrip ir ≠ [] := fun h => he (Or.inr h)
    cases hps : pyStrip ir with
    | nil => exact hsne hps
    | cons c t =>
      have hcws : isPySpace c = false := by
        apply dropWhile_head_false
        rw [← hps]
        rfl
      have hcn : ¬(c = '\n') := by
        intro hc
        rw [hc] at hcws
        exact absurd hcws (by decide)
      cases hsp : splitNL t with
      | nil => exact absurd hsp (splitNL_ne_nil t)
      | cons l0 ls =>
        have hspl : splitNL (pyStrip ir) = (c :: l0) :: ls := by
          rw [hps]
          simp only [splitNL, hsp, if_neg hcn]
        have hmem : (c :: l0) ∈ splitNL (pyStrip ir) := by
          rw [hspl]
          exact List.mem_cons_self (c :: l0) ls
        have hnb : pyStrip (c :: l0) ≠ [] := by
          intro h0
          have hws := (pyStrip_eq_nil_iff (c :: l0)).mp h0 c
            (List.mem_cons_self c l0)
          rw [hcws] at hws
          exact absurd hws (by simp)
        exact synLoopT_ne_noOps COMPACT_IR_PATTERNS (splitNL (pyStrip ir)) 0 0
          (Or.inr ⟨c :: l0, hmem, hnb⟩) hcontra

/-- Counterexample to C5: `"C . . ."` and `"C 1..2 3 4"` — whose operand
tokens are not lexically valid decimal or integer literals — are
accepted by `validate_syntax`, not rejected. -/
theorem C5_counterexample :
    validateSyn (("C . . .").toList) = (true, none)
    ∧ validateSyn (("C 1..2 3 4").toList) = (true, none) := by
  constructor <;> decide

/-- C5 as amended: the cube entry is anchored — it accepts only lines
that tokenize as `C` followed by exactly three whitespace-separated
operand tokens — but each operand token is only required to be a
nonempty run over the character class `[0-9.]`, not a lexically valid
numeric literal. -/
theorem C5_amended_class (s : List Char) (h : matchAtoms cubePattern s = true) :
    ∃ t1 t2 t3, pySplitWs s = [['C'], t1, t2, t3]
      ∧ (t1 ≠ [] ∧ ∀ c ∈ t1, isDigitDot c = true)
      ∧ (t2 ≠ [] ∧ ∀ c ∈ t2, isDigitDot c = true)
      ∧ (t3 ≠ [] ∧ ∀ c ∈ t3, isDigitDot c = true) := by
  obtain ⟨ts, hsplit, hf⟩ := cube_split h
  obtain ⟨t1, ts, rfl, h1, hf⟩ := tokOk_cons hf
  obtain ⟨t2, ts, rfl, h2, hf⟩ := tokOk_cons hf
  obtain ⟨t3, ts, rfl, h3, hf⟩ := tokOk_cons hf
  obtain rfl := tokOk_nil hf
  exact ⟨t1, t2, t3, hsplit, ⟨h1.1, h1.2⟩, ⟨h2.1, h2.2⟩, ⟨h3.1, h3.2⟩⟩

/-- Witness for the amended C5 at the line `"C 0.5 2 3"`. -/
theorem C5_witness :
    ∃ t1 t2 t3, pySplitWs (("C 0.5 2 3").toList) = [['C'], t1, t2, t3]
      ∧ (t1 ≠ [] ∧ ∀ c ∈ t1, isDigitDot c = true)
      ∧ (t2 ≠ [] ∧ ∀ c ∈ t2, isDigitDot c = true)
      ∧ (t3 ≠ [] ∧ ∀ c ∈ t3, isDigitDot c = true) :=
  C5_amended_class (("C 0.5 2 3").toList) (by decide)

/-- C7: `exact_match` is true exactly when the two strings agree after
each is stripped of leading and trailing whitespace, with no internal
normalization: `"C 1 1 1"` matches `"  C 1 1 1\n"` but not
`"C  1 1 1"`. -/
theorem C7_exact_match :
    (∀ target generated, exact_match target generated = true ↔
      pyStrip target = pyStrip generated)
    ∧ exact_match (("C 1 1 1").toList) (("  C 1 1 1\n").toList) = true
    ∧ exact_match (("C 1 1 1").toList) (("C  1 1 1").toList) = false := by
  refine ⟨fun t g => ?_, by decide, by decide⟩
  unfold exact_match
  exact decide_eq_true_iff

theorem takeWhile_append_all {p : Char → Bool} :
    ∀ (l1 l2 : List Char), (∀ c ∈ l1, p c = true) →
      (l1 ++ l2).takeWhile p = l1 ++ l2.takeWhile p := by
  intro l1
  induction l1 with
  | nil => intro l2 _; rfl
  | cons c l1 ih =>
    intro l2 h
    rw [List.cons_append,
      List.takeWhile_cons_of_pos (h c (List.mem_cons_self c l1)),
      ih l2 fun d hd => h d (List.mem_cons_of_mem c hd)]
    rfl

theorem takeWhile_all {p : Char → Bool} :
    ∀ l : List Char, (∀ c ∈ l, p c = true) → l.takeWhile p = l := by
  intro l
  induction l with
  | nil => intro _; rfl
  | cons c l ih =>
    intro h
    rw [List.takeWhile_cons_of_pos (h c (List.mem_cons_self c l)),
      ih fun d hd => h d (List.mem_cons_of_mem c hd)]

theorem digitChar_ne_colon (m : Nat) : (digitChar m != ':') = true := by
  rcases m with _ | _ | _ | _ | _ | _ | _ | _ | _ | _ | m
  case succ => exact (by decide : (('*' : Char) != ':') = true)
  all_goals decide

theorem natToCharsAux_no_colon :
    ∀ (fuel n : Nat) (acc : List Char), (∀ c ∈ acc, (c != ':') = true) →
      ∀ c ∈ natToCharsAux fuel n acc, (c != ':') = true := by
  intro fuel
  induction fuel with
  | zero => intro n acc hacc c hc; exact hacc c hc
  | succ fuel ih =>
    intro n acc hacc c hc
    unfold natToCharsAux at hc
    by_cases hn : n < 10
    · rw [if_pos hn] at hc
      rcases List.mem_cons.mp hc with rfl | hmem
      · exact digitChar_ne_colon n
      · exact hacc c hmem
    · rw [if_neg hn] at hc
      refine ih (n / 10) (digitChar (n % 10) :: acc) ?_ c hc
      intro d hd
      rcases List.mem_cons.mp hd with rfl | hmem
      · exact digitChar_ne_colon (n % 10)
      · exact hacc d hmem

theorem natToChars_no_colon (n : Nat) : ∀ c ∈ natToChars n, (c != ':') = true :=
  natToCharsAux_no_colon (n + 1) n [] (by simp)

theorem intToChars_no_colon (i : Int) : ∀ c ∈ intToChars i, (c != ':') = true := by
  intro c hc
  unfold intToChars at hc
  by_cases hi : i < 0
  · rw [if_pos hi] at hc
    rcases List.mem_cons.mp hc with rfl | hmem
    · decide
    · exact natToChars_no_colon i.natAbs c hmem
  · rw [if_neg hi] at hc
    exact natToChars_no_colon i.natAbs c hc

/-- Counterexample to C8: two `SyntaxError` verdicts of the same kind at
different line numbers are bucketed under different histogram keys,
because the text before the first colon contains the line number. -/
theorem C8_counterexample :
    validateSyn (("X").toList) = (false, some (synErrMsg 0 (['X'])))
    ∧ validateSyn (("C 1 1 1\nX").toList) = (false, some (synErrMsg 1 (['X'])))
    ∧ (histKey (synErrMsg 0 (['X'])) == histKey (synErrMsg 1 (['X']))) = false := by
  refine ⟨by decide, by decide, by decide⟩

/-- C8 as amended: the histogram key (text before the first colon) of a
`SyntaxError` message is `"Invalid syntax at line N"` — independent of
the excerpt but containing the line number — while `DanglingReference`
messages contain no colon at all, so their whole message, operand
values and node index included, is the key; the `EmptyInput` and
`NoValidOperations` keys are the constant full messages. -/
theorem C8_amended_keys :
    (∀ i e, histKey (synErrMsg i e) =
      "Invalid syntax at line ".toList ++ natToChars (i + 1))
    ∧ (∀ r k, histKey (refMsg1 r k) = refMsg1 r k)
    ∧ (∀ r1 r2 k, histKey (refMsg2 r1 r2 k) = refMsg2 r1 r2 k)
    ∧ histKey emptyMsg = emptyMsg
    ∧ histKey noOpsMsg = noOpsMsg := by
  refine ⟨?_, ?_, ?_, by decide, by decide⟩
  · intro i e
    unfold histKey synErrMsg
    rw [List.append_assoc, List.append_assoc]
    rw [takeWhile_append_all "Invalid syntax at line ".toList
      (natToChars (i + 1) ++ (": ".toList ++ e.take 50)) (by decide)]
    rw [takeWhile_append_all (natToChars (i + 1)) (": ".toList ++ e.take 50)
      (natToChars_no_colon (i + 1))]
    rw [show (": ".toList ++ e.take 50).takeWhile (fun c => c != ':') =
      ([] : List Char) from rfl]
    simp
  · intro r k
    unfold histKey
    apply takeWhile_all
    intro c hc
    unfold refMsg1 at hc
    simp only [List.mem_append] at hc
    rcases hc with ((hc | hc) | hc) | hc
    · exact (by decide : ∀ d ∈ "Invalid reference ".toList, (d != ':') = true) c hc
    · exact intToChars_no_colon r c hc
    · exact (by decide : ∀ d ∈ " at node ".toList, (d != ':') = true) c hc
    · exact natToChars_no_colon k c hc
  · intro r1 r2 k
    unfold histKey
    apply takeWhile_all
    intro c hc
    unfold refMsg2 at hc
    simp only [List.mem_append] at hc
    rcases hc with ((((hc | hc) | hc) | hc) | hc) | hc
    · exact (by decide : ∀ d ∈ "Invalid references ".toList, (d != ':') = true) c hc
    · exact intToChars_no_colon r1 c hc
    · exact (by decide : ∀ d ∈ ", ".toList, (d != ':') = true) c hc
    · exact intToChars_no_colon r2 c hc
    · exact (by decide : ∀ d ∈ " at node ".toList, (d != ':') = true) c hc
    · exact natToChars_no_colon k c hc

theorem matchAtoms_cons {a : Atom} {p : List Atom} {s : List Char}
    (h : matchAtoms (a :: p) s = true) :
    ∃ r, matchAtom a s = some r ∧ matchAtoms p r = true := by
  unfold matchAtoms at h ⊢
  rw [matchSeq_cons_eq] at h
  cases ha : matchAtom a s with
  | none => rw [ha] at h; exact absurd h (by simp)
  | some r =>
    rw [ha] at h
    simp only [Option.some_bind] at h
    exact ⟨r, rfl, h⟩

theorem matchAtoms_lit_head {ch : Char} {p : List Atom} {s : List Char}
    (h : matchAtoms (.lit ch :: p) s = true) : s.head? = some ch := by
  obtain ⟨r, ha, _⟩ := matchAtoms_cons h
  rw [matchAtom_lit ha]
  rfl

theorem sphere_scale_absurd {s : List Char}
    (h1 : matchAtoms spherePattern s = true)
    (h2 : matchAtoms scalePattern s = true) : False := by
  obtain ⟨r1, ha1, hrest1⟩ := matchAtoms_cons h1
  obtain ⟨r2, ha2, hrest2⟩ := matchAtoms_cons h2
  have e1 : s = 'S' :: r1 := matchAtom_lit ha1
  have e2 : s = 'S' :: r2 := matchAtom_lit ha2
  have hr : r1 = r2 := by
    rw [e1] at e2
    exact (List.cons.injEq 'S' r1 'S' r2 ▸ e2).2
  obtain ⟨r1w, haw, _⟩ := matchAtoms_cons hrest1
  obtain ⟨c, s', heq, hcw⟩ := matchClass_head haw
  obtain ⟨r2c, hac, _⟩ := matchAtoms_cons hrest2
  have e3 : r2 = 'C' :: r2c := matchAtom_lit hac
  have h4 : c :: s' = 'C' :: r2c := by rw [← heq, hr, e3]
  have hcc : c = 'C' := (List.cons.injEq c s' 'C' r2c ▸ h4).1
  rw [hcc] at hcw
  exact absurd hcw (by decide)

theorem lineMatchesT_perm {t1 t2 : List (List Atom)} (h : t1.Perm t2) :
    ∀ s, lineMatchesT t1 s = lineMatchesT t2 s := by
  induction h with
  | nil => intro s; rfl
  | cons x _ ih =>
    intro s
    simp only [lineMatchesT, List.any_cons]
    have h' := ih s
    simp only [lineMatchesT] at h'
    rw [h']
  | swap x y _ =>
    intro s
    simp only [lineMatchesT, List.any_cons]
    rw [← Bool.or_assoc, ← Bool.or_assoc, Bool.or_comm (matchAtoms y s) (matchAtoms x s)]
  | trans _ _ ih1 ih2 =>
    intro s
    rw [ih1 s, ih2 s]

theorem synLoopT_congr {t1 t2 : List (List Atom)}
    (hm : ∀ s, lineMatchesT t1 s = lineMatchesT t2 s) :
    ∀ (ls : List (List Char)) (i n : Nat), synLoopT t1 ls i n = synLoopT t2 ls i n := by
  intro ls
  induction ls with
  | nil => intro i n; rfl
  | cons l0 rest ih =>
    intro i n
    rw [synLoopT_cons, synLoopT_cons, hm (pyStrip l0)]
    by_cases hb : pyStrip l0 = []
    · rw [if_pos hb, if_pos hb, ih]
    · rw [if_neg hb, if_neg hb]
      by_cases hmm : lineMatchesT t2 (pyStrip l0) = true
      · rw [if_pos hmm, if_pos hmm, ih]
      · rw [if_neg hmm, if_neg hmm]

/-- C9: the ten grammar patterns are pairwise disjoint — a line matches
at most one entry of `COMPACT_IR_PATTERNS` (including the `S` vs `SC`
pair) — and consequently `validate_syntax` computes the same verdict
over any permutation of the pattern table. -/
theorem C9_patterns_disjoint :
    (∀ (s : List Char) (p q : List Atom), p ∈ COMPACT_IR_PATTERNS →
      q ∈ COMPACT_IR_PATTERNS → matchAtoms p s = true → matchAtoms q s = true →
      p = q)
    ∧ ∀ tbl : List (List Atom), tbl.Perm COMPACT_IR_PATTERNS →
        ∀ ir, validateSynT tbl ir = validateSyn ir := by
  constructor
  · intro s p q hp hq h1 h2
    simp only [COMPACT_IR_PATTERNS, List.mem_cons, List.not_mem_nil, or_false] at hp hq
    rcases hp with rfl | rfl | rfl | rfl | rfl | rfl | rfl | rfl | rfl | rfl <;>
      rcases hq with rfl | rfl | rfl | rfl | rfl | rfl | rfl | rfl | rfl | rfl <;>
      first
        | rfl
        | exact absurd (matchAtoms_lit_head h2)
            (by rw [matchAtoms_lit_head h1]; decide)
        | exact (sphere_scale_absurd h1 h2).elim
        | exact (sphere_scale_absurd h2 h1).elim
  · intro tbl hperm ir
    unfold validateSyn validateSynT
    by_cases he : ir = [] ∨ pyStrip ir = []
    · rw [if_pos he, if_pos he]
    · rw [if_neg he, if_neg he,
        synLoopT_congr (lineMatchesT_perm hperm) (splitNL (pyStrip ir)) 0 0]

theorem filter_mid_len (f : EvalMetrics → Bool) (pre post : List EvalMetrics)
    (r r' : EvalMetrics) (hf : f r = f r') :
    ((pre ++ r :: post).filter f).length = ((pre ++ r' :: post).filter f).length := by
  rw [List.filter_append, List.filter_append, List.filter_cons, List.filter_cons, hf]
  by_cases hfr : f r' = true <;> simp [hfr]

theorem buildErrors_mid (pre post : List EvalMetrics) (r r' : EvalMetrics)
    (he : r.error_message = r'.error_message) :
    buildErrors (pre ++ r :: post) = buildErrors (pre ++ r' :: post) := by
  unfold buildErrors
  rw [List.foldl_append, List.foldl_append, List.foldl_cons, List.foldl_cons, he]

/-- C10: an example whose `geometry_valid` field is absent (`None`)
counts toward the total but not toward the geometry-valid count — only
the exact value `True` is counted — so in both `evaluate_model`'s
aggregation and `compute_metrics` an absent geometry verdict yields
exactly the same metrics as a `False` one. -/
theorem C10_geometry_none (pre post : List EvalMetrics) (r : EvalMetrics)
    (h : r.geometry_valid = none) :
    aggregate (pre ++ r :: post) =
      aggregate (pre ++ { r with geometry_valid := some false } :: post)
    ∧ (aggregate (pre ++ r :: post)).total = pre.length + post.length + 1
    ∧ (aggregate (pre ++ r :: post)).geometry_valid =
      (aggregate (pre ++ post)).geometry_valid
    ∧ compute_metrics (pre ++ r :: post) =
      compute_metrics (pre ++ { r with geometry_valid := some false } :: post) := by
  have hlen : (pre ++ r :: post).length =
      (pre ++ { r with geometry_valid := some false } :: post).length := by
    simp
  have hsvlen : ((pre ++ r :: post).filter fun x => x.syn_valid).length =
      ((pre ++ { r with geometry_valid := some false } :: post).filter
        fun x => x.syn_valid).length :=
    filter_mid_len _ pre post r _ rfl
  have hgvlen : ((pre ++ r :: post).filter
      fun x => decide (x.geometry_valid = some true)).length =
      ((pre ++ { r with geometry_valid := some false } :: post).filter
        fun x => decide (x.geometry_valid = some true)).length :=
    filter_mid_len _ pre post r _ (by simp [h])
  have hemlen : ((pre ++ r :: post).filter fun x => x.exact_match).length =
      ((pre ++ { r with geometry_valid := some false } :: post).filter
        fun x => x.exact_match).length :=
    filter_mid_len _ pre post r _ rfl
  have herr : buildErrors (pre ++ r :: post) =
      buildErrors (pre ++ { r with geometry_valid := some false } :: post) :=
    buildErrors_mid pre post r _ rfl
  have hgcount : ((pre ++ r :: post).filter
      fun x => decide (x.geometry_valid = some true)).length =
      ((pre ++ post).filter fun x => decide (x.geometry_valid = some true)).length := by
    rw [List.filter_append, List.filter_append, List.filter_cons]
    rw [show decide (r.geometry_valid = some true) = false from by simp [h]]
    simp
  refine ⟨?_, by simp [aggregate]; omega, hgcount, ?_⟩
  · unfold aggregate
    rw [hlen, hsvlen, hgvlen, hemlen, herr]
  · unfold compute_metrics
    rw [hlen, hsvlen, hgvlen, hemlen]

/-- Witness for C10 at a single-example list with absent geometry
verdict. -/
theorem C10_witness :
    aggregate [{ syn_valid := false }] =
      aggregate [{ ({ syn_valid := false } : EvalMetrics) with
        geometry_valid := some false }] :=
  (C10_geometry_none [] [] { syn_valid := false } rfl).1
